import Mathlib

/-!
Verification of the swagger-type-parser repository's schema/type compiler,
dependency extractor, endpoint namer, folder/key resolver and URL builder.

The TypeScript sources are shallowly embedded: JavaScript strings become
Lean `String`s (with the character-level helpers below reproducing the
string operations the code uses), JSON-schema nodes become the inductive
`Sch` (an `Option`-valued field models a field that may be absent from the
JavaScript object, since the code distinguishes absent from present-empty
via truthiness), and the recursive generator functions — whose recursion in
the source goes through reference resolution and therefore does not
structurally terminate — are embedded fuel-indexed, returning `none` when
the fuel runs out (a run that exhausts every fuel bound models a
non-terminating run of the source).
-/

namespace Swagger

/-- JS `str.split(sep)` on a character list: splits at every separator,
keeping empty pieces, and yields `[[]]` for the empty input, exactly as
JavaScript's `String.prototype.split` with a single-character separator. -/
def splitCharList (sep : Char) : List Char → List (List Char)
  | [] => [[]]
  | c :: cs =>
    if c = sep then [] :: splitCharList sep cs
    else
      match splitCharList sep cs with
      | [] => [[c]]
      | g :: gs => (c :: g) :: gs

/-- JS `s.split(sep)` for a one-character separator. -/
def jsSplit (sep : Char) (s : String) : List String :=
  (splitCharList sep s.toList).map List.asString

/-- JS `s.includes(c)` for a single character. -/
def strContainsChar (c : Char) (s : String) : Bool :=
  s.toList.contains c

/-- JS `s.toLowerCase()` restricted to ASCII, which is all the generator
ever lowercases. -/
def strToLower (s : String) : String :=
  (s.toList.map Char.toLower).asString

/-- JS global replacement of every hyphen by an underscore. -/
def replaceDashes (s : String) : String :=
  (s.toList.map fun c => if c = '-' then '_' else c).asString

/-- JS `s.replace(/^\/+|\/+$/g, "")`: remove every leading and trailing
slash. -/
def stripSlashes (s : String) : String :=
  (((s.toList.dropWhile (· = '/')).reverse.dropWhile (· = '/')).reverse).asString

/-- Whitespace in the sense of JS `String.prototype.trim`. -/
def jsWhitespace (c : Char) : Bool :=
  c == ' ' || c == '\t' || c == '\n' || c == '\r' || c.val == 11 || c.val == 12 ||
    c.val == 160 || c.val == 0xFEFF

/-- JS `s.trim() === ""`: every character is whitespace. -/
def trimEmpty (s : String) : Bool :=
  s.toList.all jsWhitespace

/-- First character class of the identifier regex `^[a-zA-Z_$]`. -/
def isIdentStart (c : Char) : Bool :=
  c.isAlpha || c == '_' || c == '$'

/-- Later character class of the identifier regex `[a-zA-Z0-9_$]*$`. -/
def isIdentChar (c : Char) : Bool :=
  c.isAlphanum || c == '_' || c == '$'

/-- The property-name test `/^[a-zA-Z_$][a-zA-Z0-9_$]*$/.test(key)` used to
decide whether an object key may appear unquoted. -/
def isValidIdent (s : String) : Bool :=
  match s.toList with
  | [] => false
  | c :: cs => isIdentStart c && cs.all isIdentChar

/-- JS `v.replace(/'/g, "\\'")`: escape single quotes inside enum string
literals. -/
def escapeSingleQuotes (s : String) : String :=
  (s.toList.foldr
    (fun c acc => if c.val = 39 then Char.ofNat 92 :: Char.ofNat 39 :: acc else c :: acc)
    []).asString

/-- JS `arr.join(sep)`: empty string for the empty array, otherwise the
elements with the separator in between. -/
def joinSep (sep : String) : List String → String
  | [] => ""
  | [x] => x
  | x :: y :: xs => x ++ sep ++ joinSep sep (y :: xs)

/-- Assoc-list lookup standing in for a JavaScript object read `m[k]`:
object keys are unique, so first match is the value. -/
def assocLookup {β : Type} (l : List (String × β)) (k : String) : Option β :=
  match l with
  | [] => none
  | (k', v) :: rest => if k' = k then some v else assocLookup rest k

/-- The `extractTypeNameFromRef` of `path-utils.ts`: `ref.split('/')` and
take the last part. -/
def extractTypeNameFromRef (ref : String) : String :=
  (jsSplit '/' ref).getLastD ""

/-- An enum literal of a schema: the code only distinguishes strings (which
are quoted and escaped) from everything else (emitted as `String(v)`), so a
non-string literal is carried by its printed form. -/
inductive EnumLit : Type where
  | vstr (s : String)
  | vraw (printed : String)

/-- A schema node or a `$ref` object, mirroring `Schema | Reference` of
`types.ts`. An `Option` field models presence of the JavaScript field:
`none` is an absent field, `some []` a present-but-empty array or object,
which the source distinguishes via truthiness (`{}` and `[]` are truthy). -/
inductive Sch : Type where
  | ref (r : String)
  | node
      (ty : Option String)
      (format : Option String)
      (descr : Option String)
      (nullable : Bool)
      (props : Option (List (String × Sch)))
      (req : List String)
      (items : Option Sch)
      (enumVals : Option (List EnumLit))
      (one : Option (List Sch))
      (anyO : Option (List Sch))
      (allO : Option (List Sch))
      (addProps : Option (Bool ⊕ Sch))

/-- A bare primitive schema `{ type: t }`. -/
def primNode (t : String) : Sch :=
  .node (some t) none none false none [] none none none none none none

/-- An object schema `{ type: "object", properties, required }`. -/
def objNode (props : List (String × Sch)) (req : List String) : Sch :=
  .node (some "object") none none false (some props) req none none none none none none

/-- The empty schema `{}` (no fields at all). -/
def emptyNode : Sch :=
  .node none none none false none [] none none none none none none

/-- JS `'type' in resolved`: the resolved object carries a `type` key. A
`$ref` object has no `type` key. -/
def hasTypeField : Sch → Bool
  | .ref _ => false
  | .node ty _ _ _ _ _ _ _ _ _ _ _ => ty.isSome

/-- The normalized document: `components.schemas/parameters/responses` of
`NormalizedSpec`. Parameter and response objects are carried as `Sch`
values as well, since the embedded code only ever reads schema-shaped
fields off them (a JavaScript object is structural, so this loses
nothing the embedded functions look at). -/
structure SpecDoc : Type where
  schemas : List (String × Sch)
  parameters : List (String × Sch)
  responses : List (String × Sch)

/-- The `resolveRef` of `parser.ts` (listed in the repository README):
in-document `#/components/<section>/<key>` lookup, plus the legacy
`#/definitions/<key>` form looked up in `components.schemas`; anything not
starting with `#/` resolves to `null`. -/
def resolveRefF (spec : SpecDoc) (ref : String) : Option Sch :=
  let cs := ref.toList
  if ¬ (['#', '/'].isPrefixOf cs) then none
  else
    let parts := (splitCharList '/' (cs.drop 2)).map List.asString
    if parts.length < 2 then none
    else
      let sectionName := parts.getD 0 ""
      let key := joinSep "/" (parts.drop 1)
      if sectionName = "components" then
        if parts.length < 3 then none
        else
          let componentType := parts.getD 1 ""
          let componentKey := joinSep "/" (parts.drop 2)
          if componentType = "schemas" then assocLookup spec.schemas componentKey
          else if componentType = "parameters" then assocLookup spec.parameters componentKey
          else if componentType = "responses" then assocLookup spec.responses componentKey
          else none
      else if sectionName = "definitions" then assocLookup spec.schemas key
      else none

/-- A left brace character, named so every literal brace in the file is
explicit. -/
def charLBrace : Char := Char.ofNat 123

/-- A right brace character. -/
def charRBrace : Char := Char.ofNat 125

/-- A single-quote character. -/
def charQuote : Char := Char.ofNat 39

/-- A backslash character. -/
def charBackslash : Char := Char.ofNat 92

/-- The `properties` field of a node, `none` on a `$ref` object (reading a
missing field yields `undefined`). -/
def Sch.propsOf : Sch → Option (List (String × Sch))
  | .ref _ => none
  | .node _ _ _ _ p _ _ _ _ _ _ _ => p

/-- The `description` field of a node, `none` on a `$ref` object. -/
def Sch.descrOf : Sch → Option String
  | .ref _ => none
  | .node _ _ d _ _ _ _ _ _ _ _ _ => d

/-- JS truthiness of an optional array field combined with a
`.length > 0` test: the branch guards `schema.oneOf && schema.oneOf.length > 0`
and friends. -/
def listActive {α : Type} (o : Option (List α)) : Bool :=
  match o with
  | some l => !l.isEmpty
  | none => false

/-- One enum literal as the generator prints it: strings are single-quoted
with inner quotes escaped, anything else is `String(v)`. -/
def enumLitStr (v : EnumLit) : String :=
  match v with
  | .vstr s => "\x27" ++ escapeSingleQuotes s ++ "\x27"
  | .vraw t => t

/-- The `generatePrimitiveType` switch of `schema-generator.ts` (both the
date formats and the default string case print `string`, as in the
source). -/
def primTypeStr (ty : Option String) (fmt : Option String) (unknownTxt : String) : String :=
  match ty with
  | some "string" =>
      if fmt = some "date-time" ∨ fmt = some "date" then "string" else "string"
  | some "number" => "number"
  | some "integer" => "number"
  | some "boolean" => "boolean"
  | _ => unknownTxt

/-- The object key as it is emitted: unquoted when it passes the identifier
regex, single-quoted otherwise. -/
def safeKey (k : String) : String :=
  if isValidIdent k then k else "\x27" ++ k ++ "\x27"

/-- The JSDoc line emitted ahead of an object property when the property's
schema (a non-reference with a truthy description) carries one. -/
def propComment (v : Sch) : String :=
  match v.descrOf with
  | some d => if d = "" then "" else "  /** " ++ d ++ " */\n"
  | none => ""

/-- The `schemaToTypeScript` of `src/generator/schema-generator.ts`,
fuel-indexed (the source recursion goes through `resolveRef` and need not
terminate on a cyclic document; `none` models running out of fuel). The
`generateObjectType` helper of the same file is inlined in the object
branch, with the fuel threaded to every recursive call. -/
def stsA : Nat → SpecDoc → Sch → String → Option String
  | 0, _, _, _ => none
  | n + 1, spec, .ref r, _ctx =>
      (match resolveRefF spec r with
       | some t =>
           if hasTypeField t then stsA n spec t _ctx
           else some (extractTypeNameFromRef r)
       | none => some (extractTypeNameFromRef r))
  | n + 1, spec, .node ty fmt dsc nb props req items ev one anyO allO ap, ctx =>
      if nb then
        (stsA n spec (.node ty fmt dsc false props req items ev one anyO allO ap) ctx).map
          (fun t => t ++ " | null")
      else if listActive one then
        ((one.getD []).mapM (fun (s : Sch) =>
            match s with
            | .ref rr =>
                (match resolveRefF spec rr with
                 | some t =>
                     if hasTypeField t then stsA n spec t ctx
                     else some (extractTypeNameFromRef rr)
                 | none => some (extractTypeNameFromRef rr))
            | v => stsA n spec v ctx)).map
          (fun ts => "(" ++ joinSep " | " ts ++ ")")
      else if listActive anyO then
        ((anyO.getD []).mapM (fun (s : Sch) =>
            match s with
            | .ref rr =>
                (match resolveRefF spec rr with
                 | some t =>
                     if hasTypeField t then stsA n spec t ctx
                     else some (extractTypeNameFromRef rr)
                 | none => some (extractTypeNameFromRef rr))
            | v => stsA n spec v ctx)).map
          (fun ts => "(" ++ joinSep " | " ts ++ ")")
      else if listActive allO then
        ((allO.getD []).mapM (fun (s : Sch) =>
            match s with
            | .ref rr =>
                (match resolveRefF spec rr with
                 | some t =>
                     if hasTypeField t then stsA n spec t ctx
                     else some (extractTypeNameFromRef rr)
                 | none => some (extractTypeNameFromRef rr))
            | v => stsA n spec v ctx)).map
          (fun ts => "(" ++ joinSep " & " ts ++ ")")
      else if listActive ev then
        some (joinSep " | " ((ev.getD []).map enumLitStr))
      else if ty = some "array" then
        match items with
        | none => some "unknown[]"
        | some it =>
            ((match it with
              | .ref rr => some (extractTypeNameFromRef rr)
              | v => stsA n spec v ctx)).map (fun t => t ++ "[]")
      else if ty = some "object" ∨ ((ty.getD "") = "" ∧ props.isSome) then
        if (props.getD []).isEmpty then
          match ap with
          | some (.inl false) => some "Record<string, never>"
          | some (.inl true) => some "Record<string, unknown>"
          | some (.inr s) =>
              ((match s with
                | .ref rr => some (extractTypeNameFromRef rr)
                | v => stsA n spec v ctx)).map
                (fun vt => "Record<string, " ++ vt ++ ">")
          | none => some "Record<string, unknown>"
        else do
          let pls ← (props.getD []).mapM (fun (kv : String × Sch) =>
            ((match kv.2 with
              | .ref rr => some (extractTypeNameFromRef rr)
              | v => stsA n spec v ctx)).map (fun pt =>
              propComment kv.2 ++ "  " ++ safeKey kv.1 ++
                (if req.contains kv.1 then "" else "?") ++ ": " ++ pt ++ ";"))
          let extra ← (match ap with
            | some (.inl true) => some ["  [key: string]: unknown;"]
            | some (.inr s) =>
                ((match s with
                  | .ref rr => some (extractTypeNameFromRef rr)
                  | v => stsA n spec v ctx)).map
                  (fun vt => ["  [key: string]: " ++ vt ++ ";"])
            | _ => some ([] : List String))
          some ("\x7b\n" ++ joinSep "\n" (pls ++ extra) ++ "\n\x7d")
      else some (primTypeStr ty fmt "unknown")

/-- The `isEmptySchema` of the duplicated schema generator (the variant with
union collapsing): a non-reference whose `type` is absent or the literal
string `null` and that carries no properties, items, enum, sub-union,
intersection or `additionalProperties` field at all (in the source a
present-but-empty `properties: {}` or `enum: []` is truthy and therefore
already makes the schema non-empty). -/
def isEmptySchemaF : Sch → Bool
  | .ref _ => false
  | .node ty _ _ _ props _ items ev one anyO allO ap =>
      (ty.isNone || ty == some "null") && props.isNone && items.isNone && ev.isNone &&
        one.isNone && anyO.isNone && allO.isNone && ap.isNone

/-- JS truthiness of a string-or-null variable: `null` and the empty
string are falsy, every other string truthy. -/
def jsTruthyStr (o : Option String) : Bool :=
  o.getD "" ≠ ""

/-- The loop body of `getSingleRefTypeNameIfAllOthersEmpty`, threading the
`refTypeName` accumulator. The source's distinct-reference abort is guarded
by truthiness (`if (refTypeName && refTypeName !== typeName) return null`),
so an accumulated empty-string name is simply overwritten by a later
reference's name; a non-empty non-reference entry aborts with `none`. -/
def getSingleRefGo : List Sch → Option String → Option String
  | [], acc => acc
  | .ref rr :: rest, acc =>
      let tn := extractTypeNameFromRef rr
      (match acc with
       | some t => if t ≠ "" ∧ t ≠ tn then none else getSingleRefGo rest (some tn)
       | none => getSingleRefGo rest (some tn))
  | s :: rest, acc =>
      if isEmptySchemaF s then getSingleRefGo rest acc else none

/-- The `getSingleRefTypeNameIfAllOthersEmpty` of the collapsing schema
generator: when a `oneOf`/`anyOf`/`allOf` list holds exactly one referenced
type name and every other entry is an empty schema, that name. -/
def getSingleRefTypeNameIfAllOthersEmpty (l : List Sch) : Option String :=
  getSingleRefGo l none

/-- Insertion into an ascending list of strings, for the embedded
`Object.keys(...).sort()`. -/
def insertSorted (x : String) : List String → List String
  | [] => [x]
  | y :: ys => if x ≤ y then x :: y :: ys else y :: insertSorted x ys

/-- JS default `Array.prototype.sort` on the key lists (code-unit
ascending; the keys compared here are ASCII). -/
def sortStrings (l : List String) : List String :=
  l.foldr insertSorted []

/-- The scan of `components.schemas` inside `findNamedSchemaByShape`: first
named schema whose sorted property-name list equals the target's (the
source compares lengths and then element by element, which is exactly list
equality). -/
def findShapeGo (targetKeys : List String) : List (String × Sch) → Option String
  | [] => none
  | (name, cand) :: rest =>
      match cand.propsOf with
      | none => findShapeGo targetKeys rest
      | some cl =>
          if sortStrings (cl.map (·.1)) = targetKeys then some name
          else findShapeGo targetKeys rest

/-- The `findNamedSchemaByShape` of the collapsing schema generator: match
an inline object against the named component schemas by property-name set
only. -/
def findNamedSchemaByShape (spec : SpecDoc) (s : Sch) : Option String :=
  match s.propsOf with
  | none => none
  | some [] => none
  | some plist => findShapeGo (sortStrings (plist.map (·.1))) spec.schemas

/-- The `schemaToTypeScript` of the duplicated schema generator
(`getSingleRefTypeNameIfAllOthersEmpty` variant), fuel-indexed like `stsA`.
It differs from `stsA` in the union-collapsing check at the head of the
`oneOf`/`anyOf`/`allOf` branches, in the shape-matcher consulted for inline
object properties, and in printing `undefined` where the other variant
prints `unknown`. -/
def stsB : Nat → SpecDoc → Sch → String → Option String
  | 0, _, _, _ => none
  | n + 1, spec, .ref r, _ctx =>
      (match resolveRefF spec r with
       | some t =>
           if hasTypeField t then stsB n spec t _ctx
           else some (extractTypeNameFromRef r)
       | none => some (extractTypeNameFromRef r))
  | n + 1, spec, .node ty fmt dsc nb props req items ev one anyO allO ap, ctx =>
      if nb then
        (stsB n spec (.node ty fmt dsc false props req items ev one anyO allO ap) ctx).map
          (fun t => t ++ " | null")
      else if listActive one then
        let singleRefType := getSingleRefTypeNameIfAllOthersEmpty (one.getD [])
        if jsTruthyStr singleRefType then some (singleRefType.getD "")
        else
          ((one.getD []).mapM (fun (s : Sch) =>
              match s with
              | .ref rr =>
                  (match resolveRefF spec rr with
                   | some t =>
                       if hasTypeField t then stsB n spec t ctx
                       else some (extractTypeNameFromRef rr)
                   | none => some (extractTypeNameFromRef rr))
              | v => stsB n spec v ctx)).map
            (fun ts => "(" ++ joinSep " | " ts ++ ")")
      else if listActive anyO then
        let singleRefType := getSingleRefTypeNameIfAllOthersEmpty (anyO.getD [])
        if jsTruthyStr singleRefType then some (singleRefType.getD "")
        else
          ((anyO.getD []).mapM (fun (s : Sch) =>
              match s with
              | .ref rr =>
                  (match resolveRefF spec rr with
                   | some t =>
                       if hasTypeField t then stsB n spec t ctx
                       else some (extractTypeNameFromRef rr)
                   | none => some (extractTypeNameFromRef rr))
              | v => stsB n spec v ctx)).map
            (fun ts => "(" ++ joinSep " | " ts ++ ")")
      else if listActive allO then
        let singleRefType := getSingleRefTypeNameIfAllOthersEmpty (allO.getD [])
        if jsTruthyStr singleRefType then some (singleRefType.getD "")
        else
          ((allO.getD []).mapM (fun (s : Sch) =>
              match s with
              | .ref rr =>
                  (match resolveRefF spec rr with
                   | some t =>
                       if hasTypeField t then stsB n spec t ctx
                       else some (extractTypeNameFromRef rr)
                   | none => some (extractTypeNameFromRef rr))
              | v => stsB n spec v ctx)).map
            (fun ts => "(" ++ joinSep " & " ts ++ ")")
      else if listActive ev then
        some (joinSep " | " ((ev.getD []).map enumLitStr))
      else if ty = some "array" then
        match items with
        | none => some "undefined[]"
        | some it =>
            ((match it with
              | .ref rr => some (extractTypeNameFromRef rr)
              | v => stsB n spec v ctx)).map (fun t => t ++ "[]")
      else if ty = some "object" ∨ ((ty.getD "") = "" ∧ props.isSome) then
        if (props.getD []).isEmpty then
          match ap with
          | some (.inl false) => some "Record<string, never>"
          | some (.inl true) => some "Record<string, undefined>"
          | some (.inr s) =>
              ((match s with
                | .ref rr => some (extractTypeNameFromRef rr)
                | v => stsB n spec v ctx)).map
                (fun vt => "Record<string, " ++ vt ++ ">")
          | none => some "Record<string, undefined>"
        else do
          let pls ← (props.getD []).mapM (fun (kv : String × Sch) =>
            ((match kv.2 with
              | .ref rr => some (extractTypeNameFromRef rr)
              | v =>
                  let matched := findNamedSchemaByShape spec v
                  if jsTruthyStr matched then some (matched.getD "")
                  else stsB n spec v ctx)).map (fun pt =>
              propComment kv.2 ++ "  " ++ safeKey kv.1 ++
                (if req.contains kv.1 then "" else "?") ++ ": " ++ pt ++ ";"))
          let extra ← (match ap with
            | some (.inl true) => some ["  [key: string]: undefined;"]
            | some (.inr s) =>
                ((match s with
                  | .ref rr => some (extractTypeNameFromRef rr)
                  | v => stsB n spec v ctx)).map
                  (fun vt => ["  [key: string]: " ++ vt ++ ";"])
            | _ => some ([] : List String))
          some ("\x7b\n" ++ joinSep "\n" (pls ++ extra) ++ "\n\x7d")
      else some (primTypeStr ty fmt "undefined")

/-- Insertion-ordered set insertion, as `Set.prototype.add` behaves when the
set is later turned back into an array with `Array.from`. -/
def setAdd (l : List String) (x : String) : List String :=
  if l.contains x then l else l ++ [x]

mutual

/-- The inner `traverse` of `extractDependencies`
(`src/generator/dependencies.ts`), fuel-indexed and threading the `deps`
set: a reference contributes its trailing name and, when it resolves to an
object carrying a `type` key, the walk continues into the resolved body;
the source keeps no visited set, so the recursion is bounded only by the
fuel. -/
def travDeps (spec : SpecDoc) : Nat → Sch → List String → Option (List String)
  | 0, _, _ => none
  | n + 1, .ref r, acc =>
      let acc1 := setAdd acc (extractTypeNameFromRef r)
      (match resolveRefF spec r with
       | some t => if hasTypeField t then travDeps spec n t acc1 else some acc1
       | none => some acc1)
  | n + 1, .node _ _ _ _ props _ items _ one anyO allO ap, acc => do
      let a1 ← travList spec n ((props.getD []).map (·.2)) acc
      let a2 ← match items with
        | some it => travDeps spec n it a1
        | none => pure a1
      let a3 ← travList spec n (one.getD []) a2
      let a4 ← travList spec n (anyO.getD []) a3
      let a5 ← travList spec n (allO.getD []) a4
      match ap with
      | some (.inr s) => travDeps spec n s a5
      | _ => pure a5

/-- Sequential traversal of a list of child schemas, threading the
dependency set left to right. -/
def travList (spec : SpecDoc) : Nat → List Sch → List String → Option (List String)
  | _, [], acc => some acc
  | n, s :: rest, acc => do
      let a ← travDeps spec n s acc
      travList spec n rest a

end

/-- The `extractDependencies` of `src/generator/dependencies.ts`: run the
traversal with an empty set; `Array.from(deps)` preserves insertion
order. -/
def extractDependenciesF (fuel : Nat) (spec : SpecDoc) (schema : Sch) : Option (List String) :=
  travDeps spec fuel schema []

/-- The `pathToEndpointName` of `src/generator/path-utils.ts`. -/
def pathToEndpointNameF (path : String) (pathPrefixSkip : Nat) : String :=
  if path = "/" ∨ trimEmpty path ∨ stripSlashes path = "" then "root"
  else
    let segments := (jsSplit '/' (stripSlashes path)).filter (fun s => s ≠ "")
    let filteredSegments := segments.filter
      (fun s => !(strContainsChar charLBrace s) && !(strContainsChar charRBrace s))
    let skippedSegments := filteredSegments.drop (2 * pathPrefixSkip)
    if skippedSegments.isEmpty then "root"
    else strToLower (joinSep "_" (skippedSegments.map replaceDashes))

/-- The `getEndpointFolderPath` of
`src/generator/api-endpoints-generator.ts`: same stripping, brace filtering
and prefix skipping as the namer, then every segment except the last,
joined with slashes. -/
def getEndpointFolderPathF (path : String) (pathPrefixSkip : Nat) : String :=
  if path = "/" ∨ trimEmpty path ∨ stripSlashes path = "" then ""
  else
    let segments := (jsSplit '/' (stripSlashes path)).filter (fun s => s ≠ "")
    let filteredSegments := segments.filter
      (fun s => !(strContainsChar charLBrace s) && !(strContainsChar charRBrace s))
    let skippedSegments := filteredSegments.drop (2 * pathPrefixSkip)
    if skippedSegments.length ≤ 1 then ""
    else strToLower (joinSep "/" (skippedSegments.dropLast.map replaceDashes))

/-- The `buildParamSuffix` of `src/generator/api-endpoints-generator.ts`:
collect the brace-delimited path parameters and join them as
`by_<p1>_and_<p2>_..`. -/
def buildParamSuffixF (path : String) : String :=
  let segments := (jsSplit '/' (stripSlashes path)).filter (fun s => s ≠ "")
  let paramNames := (segments.filter
      (fun s =>
        (s.toList.headD ' ' == charLBrace) && (s.toList.getLastD ' ' == charRBrace))).map
    (fun s => (s.toList.drop 1).dropLast.asString)
  if paramNames.isEmpty then ""
  else "by_" ++ joinSep "_and_" paramNames

/-- The `resolveSchema` of `parser.ts` (listed in the repository README): a
reference is resolved one hop and must come back as an object carrying a
`type` key, otherwise the function throws `Failed to resolve reference`. -/
def resolveSchemaF (spec : SpecDoc) (schema : Sch) : Except String Sch :=
  match schema with
  | .ref r =>
      (match resolveRefF spec r with
       | some t =>
           if hasTypeField t then .ok t
           else .error ("Failed to resolve reference: " ++ r)
       | none => .error ("Failed to resolve reference: " ++ r))
  | s => .ok s

/-- The `generateSchemaType` of `src/generator/schema-generator.ts`:
resolve the named schema (this can throw), compile it, and wrap it in an
`export type` declaration with an optional JSDoc comment. The outer
`Option` is the fuel of the compiler, the inner `Except` the JavaScript
exception channel. -/
def generateSchemaTypeF (fuel : Nat) (spec : SpecDoc) (name : String) (schema : Sch) :
    Option (Except String String) :=
  match resolveSchemaF spec schema with
  | .error e => some (.error e)
  | .ok resolved =>
      (stsA fuel spec resolved name).map (fun typeCode =>
        let comment := match resolved.descrOf with
          | some d =>
              if d = "" then ""
              else "/**\n * " ++ joinSep "\n * " (jsSplit '\n' d) ++ "\n */\n"
          | none => ""
        .ok (comment ++ "export type " ++ name ++ " = " ++ typeCode ++ ";"))

/-- The `EndpointMeta` record of `api-endpoints-generator.ts`: folder path,
base endpoint name, HTTP method and URL path of one operation. The method
is carried as its string, as in the source (`HttpMethod` is a union of
lowercase string literals). -/
structure EndpointMeta : Type where
  folderPath : String
  baseName : String
  method : String
  path : String

/-- The default used with positional lookups into the meta array (the
source indexes only in bounds, so the default is never read on the runs the
theorems talk about). -/
def defaultMeta : EndpointMeta := ⟨"", "", "", ""⟩

/-- The grouping key `folderPath::baseName` used by
`resolveEndpointNames`. -/
def groupKey (m : EndpointMeta) : String :=
  m.folderPath ++ "::" ++ m.baseName

/-- Insertion into the `Map<string, number[]>` of groups: append the index
to an existing group or open a new group at the end (JS `Map` preserves
insertion order). -/
def insertGroup : List (String × List Nat) → String → Nat → List (String × List Nat)
  | [], k, i => [(k, [i])]
  | (k', l) :: rest, k, i =>
      if k' = k then (k', l ++ [i]) :: rest else (k', l) :: insertGroup rest k i

/-- The grouping pass of `resolveEndpointNames`: indices grouped by
`folderPath::baseName` in first-occurrence order. -/
def buildGroups : List EndpointMeta → Nat → List (String × List Nat) → List (String × List Nat)
  | [], _, acc => acc
  | m :: ms, i, acc => buildGroups ms (i + 1) (insertGroup acc (groupKey m) i)

/-- Size of `new Set(xs)`: the number of distinct elements, via
insertion-ordered set construction. -/
def distinctCount (xs : List String) : Nat :=
  (xs.foldl setAdd []).length

/-- The `while (usedKeys.has(finalKey))` counter loop of
`resolveEndpointNames`. The loop in the source is unbounded; the candidates
`key_method_2, key_method_3, …` are pairwise distinct strings, so among the
first `|usedKeys| + 1` of them one is free and the fuel bound below is
never exhausted on a run of the source. -/
def counterLoop (used : List String) (key m : String) : Nat → Nat → String
  | c, 0 => key ++ "_" ++ m ++ "_" ++ Nat.repr c
  | c, fuel + 1 =>
      let cand := key ++ "_" ++ m ++ "_" ++ Nat.repr c
      if used.contains cand then counterLoop used key m (c + 1) fuel else cand

/-- One group member's final key: the candidate `key`, then
`key_method`, then `key_method_<counter>`, first one unused. -/
def finalKeyFor (used : List String) (key m : String) : String :=
  if used.contains key then
    let k1 := key ++ "_" ++ m
    if used.contains k1 then counterLoop used key m 2 (used.length + 1) else k1
  else key

/-- The per-member loop of a multi-element group: `samePath` is the
precomputed `uniquePaths.size === 1` test; returns `(index, finalKey)`
assignments in group order. -/
def assignGroup (metas : List EndpointMeta) (samePath : Bool) :
    List Nat → List String → List (Nat × String)
  | [], _ => []
  | i :: rest, used =>
      let m := metas.getD i defaultMeta
      let key :=
        if samePath then m.baseName ++ "_" ++ strToLower m.method
        else
          let ps := buildParamSuffixF m.path
          if ps = "" then m.baseName else m.baseName ++ "_" ++ ps
      let fk := finalKeyFor used key (strToLower m.method)
      (i, fk) :: assignGroup metas samePath rest (used ++ [fk])

/-- One group of `resolveEndpointNames`: a singleton keeps its base name;
otherwise members are keyed by method suffix (same path) or parameter
suffix (differing paths), deduplicated with method and counter
suffixes. -/
def processGroup (metas : List EndpointMeta) (indices : List Nat) : List (Nat × String) :=
  match indices with
  | [i] => [(i, (metas.getD i defaultMeta).baseName)]
  | _ =>
      let groupMetas := indices.map (fun i => metas.getD i defaultMeta)
      let samePath := distinctCount (groupMetas.map (·.path)) = 1
      assignGroup metas samePath indices []

/-- The `resolveEndpointNames` of `api-endpoints-generator.ts`: one final,
collision-free key per endpoint, in the order of the input metas. -/
def resolveEndpointNamesF (metas : List EndpointMeta) : List String :=
  let groups := buildGroups metas 0 []
  let assignments := groups.foldl (fun acc g => acc ++ processGroup metas g.2) []
  (List.range metas.length).map (fun i => (assignments.lookup i).getD "")

/-- The nested `ApiEndpointsStructure`: an endpoint URL string at a leaf or
a folder of named entries (a JavaScript object, modelled as an
insertion-ordered assoc list with unique keys). -/
inductive UrlTree : Type where
  | leaf (s : String)
  | folder (es : List (String × UrlTree))

/-- Write `m[k] = v` on a JavaScript object: replace in place when the key
exists, append otherwise. -/
def setEntry : List (String × UrlTree) → String → UrlTree → List (String × UrlTree)
  | [], k, v => [(k, v)]
  | (k', v') :: rest, k, v =>
      if k' = k then (k', v) :: rest else (k', v') :: setEntry rest k v

/-- The folder walk plus final insertion of `generateApiEndpoints` (lines
80–105): walk the folder segments, creating objects as needed — an existing
non-empty string leaf is demoted under `_self`, while JS truthiness turns
an empty-string leaf into a fresh folder — and then write the endpoint
path at the final name, whatever was there before. -/
def navInsert : List String → List (String × UrlTree) → String → String →
    List (String × UrlTree)
  | [], es, name, path => setEntry es name (.leaf path)
  | seg :: rest, es, name, path =>
      let sub : List (String × UrlTree) :=
        match assocLookup es seg with
        | none => []
        | some (.leaf s) => if s = "" then [] else [("_self", .leaf s)]
        | some (.folder f) => f
      setEntry es seg (.folder (navInsert rest sub name path))

/-- The structure-building loop of `generateApiEndpoints`: insert each
endpoint (already given its resolved name) under its folder path. -/
def buildStructureF : List (EndpointMeta × String) → List (String × UrlTree) →
    List (String × UrlTree)
  | [], es => es
  | (meta, name) :: rest, es =>
      let folderSegments :=
        if meta.folderPath = "" then []
        else (jsSplit '/' meta.folderPath).filter (fun s => s ≠ "")
      buildStructureF rest (navInsert folderSegments es name meta.path)

/-- The meta built for one `(method, path)` operation by
`generateApiEndpoints`: folder path from `getEndpointFolderPath`, base name
from the endpoint's `operationId`, which `generateEndpointTypes` sets to
`pathToEndpointName(path, pathPrefixSkip)`. -/
def mkMeta (pathPrefixSkip : Nat) (mp : String × String) : EndpointMeta :=
  ⟨getEndpointFolderPathF mp.2 pathPrefixSkip, pathToEndpointNameF mp.2 pathPrefixSkip,
    mp.1, mp.2⟩

/-- The nested URL-constant tree `generateApiEndpoints` builds for a list
of `(method, path)` operations: metas, resolved names, then the insertion
loop starting from an empty object. -/
def apiEndpointsStructureF (ops : List (String × String)) (pathPrefixSkip : Nat) :
    List (String × UrlTree) :=
  let metas := ops.map (mkMeta pathPrefixSkip)
  buildStructureF (metas.zip (resolveEndpointNamesF metas)) []

/-- ECMA-262 `GetSubstitution` on the replacement string of
`String.prototype.replace`, for a regex with zero capture groups:
a doubled dollar yields one dollar, dollar-ampersand the matched
substring, dollar-backquote the portion of the original string before the
match, dollar-quote the portion after it; every other dollar sequence
(including digits, since there are no captures, and angle-bracket names,
since there are no named groups) passes through unchanged. -/
def expandDollar (matched pre post : List Char) : List Char → List Char
  | [] => []
  | '$' :: c :: rest =>
      if c = '$' then '$' :: expandDollar matched pre post rest
      else if c = '&' then matched ++ expandDollar matched pre post rest
      else if c.val = 96 then pre ++ expandDollar matched pre post rest
      else if c.val = 39 then post ++ expandDollar matched pre post rest
      else '$' :: c :: expandDollar matched pre post rest
  | c :: rest => c :: expandDollar matched pre post rest

/-- Global, non-overlapping, left-to-right replacement of a non-empty
literal pattern, as the emitted `buildUrl` does with
`new RegExp('\\' ++ brace ++ key ++ …, 'g')` on a key made of plain
characters (for such keys every pattern character matches itself, so the
matches are exactly the literal occurrences; a key carrying regex
metacharacters makes the constructed pattern non-literal — or the RegExp
constructor throw — and is outside this embedding, which is why the
buildUrl theorem's universal conjuncts restrict the keys). `pre` carries
the original characters already consumed, feeding the dollar-backquote
and dollar-quote substitutions; the replacement string goes through
`expandDollar`, as `String.prototype.replace` expands it. -/
def replaceGo (pat repl : List Char) : List Char → List Char → Nat → List Char
  | _, [], _ => []
  | pre, c :: rest, k + 1 => replaceGo pat repl (pre ++ [c]) rest k
  | pre, c :: rest, 0 =>
      if pat.isPrefixOf (c :: rest) then
        expandDollar pat pre (rest.drop (pat.length - 1)) repl ++
          replaceGo pat repl (pre ++ [c]) rest (pat.length - 1)
      else c :: replaceGo pat repl (pre ++ [c]) rest 0

/-- Replacement entry point: nothing consumed yet, no characters pending
to skip. -/
def replaceSubAll (pat repl : List Char) (l : List Char) : List Char :=
  replaceGo pat repl [] l 0

/-- A character that is not one of the regex syntax characters
`^ $ \ . * + ? ( ) [ ] ( ) |` nor a brace: a pattern built from plain
characters matches exactly its own text. -/
def regexPlainChar (c : Char) : Bool :=
  !(['^', '$', '.', '*', '+', '?', '(', ')', '[', ']', '|', Char.ofNat 92,
      charLBrace, charRBrace].contains c)

/-- The substitution loop of the emitted `buildUrl`: each parameter in
object order replaces every occurrence of its brace-wrapped key, with the
value expanded as a `String.prototype.replace` replacement string. -/
def substituteParams (template : String) (params : List (String × String)) : String :=
  (params.foldl
    (fun u kv =>
      replaceSubAll (charLBrace :: kv.1.toList ++ [charRBrace]) kv.2.toList u)
    template.toList).asString

/-- The scan for the remaining-placeholder regex of the emitted `buildUrl`
(an opening brace, one or more non-closing-brace characters, a closing
brace, globally): returns the text inside each match, which is what the
error path extracts with `slice(1, -1)`. The accumulator holds the
characters seen since an unmatched opening brace. -/
def placeholderScan : List Char → Option (List Char) → List String
  | [], _ => []
  | c :: rest, none =>
      if c = charLBrace then placeholderScan rest (some [])
      else placeholderScan rest none
  | c :: rest, some buf =>
      if c = charRBrace then
        match buf with
        | [] => placeholderScan rest none
        | _ => buf.asString :: placeholderScan rest none
      else placeholderScan rest (some (buf ++ [c]))

/-- The placeholder names still present in a URL after substitution. -/
def placeholdersF (s : String) : List String :=
  placeholderScan s.toList none

/-- The `buildUrl` function the generator emits into every API-endpoints
file: substitute all parameters, then throw a `Missing required path
parameters` error naming the unresolved placeholders and the supplied
parameter names when any placeholder survives. -/
def buildUrlF (template : String) (params : List (String × String)) : Except String String :=
  let url := substituteParams template params
  let remaining := placeholdersF url
  if remaining.isEmpty then .ok url
  else
    .error ("Missing required path parameters: " ++ joinSep ", " remaining ++
      ". Provided params: " ++ joinSep ", " (params.map (·.1)))

/-- The endpoint-namer algorithm exactly as the specification words it
(claim C5): strip leading and trailing slashes, split into segments, drop
every segment containing a brace, drop `2 × prefixSkip` leading remaining
segments, answer the fixed token `root` when no segments remain, and
otherwise join the survivors with underscores, replace hyphens with
underscores and lowercase. Stated separately from `pathToEndpointNameF` so
the two can be compared. -/
def pathToEndpointNameSpec (path : String) (pathPrefixSkip : Nat) : String :=
  let segments := (jsSplit '/' (stripSlashes path)).filter (fun s => s ≠ "")
  let filteredSegments := segments.filter
    (fun s => !(strContainsChar charLBrace s) && !(strContainsChar charRBrace s))
  let skippedSegments := filteredSegments.drop (2 * pathPrefixSkip)
  if skippedSegments.isEmpty then "root"
  else strToLower (joinSep "_" (skippedSegments.map replaceDashes))

/-- The claim-C5 algorithm amended with the one case the implementation
adds: a path whose `trim()` is empty (all-whitespace input) is also mapped
to `root`. -/
def pathToEndpointNameAmended (path : String) (pathPrefixSkip : Nat) : String :=
  if trimEmpty path then "root" else pathToEndpointNameSpec path pathPrefixSkip

/-- The candidate key the group resolver computes for a member of a
multi-path group: the base name, suffixed by the path's parameter suffix
when the path has parameters (lines 166–170 of
`api-endpoints-generator.ts`). -/
def paramKeyFor (base path : String) : String :=
  if buildParamSuffixF path = "" then base else base ++ "_" ++ buildParamSuffixF path

/-- A one-schema document with a named string schema, used as a concrete
instance in several theorems. -/
def specU : SpecDoc := ⟨[("User", primNode "string")], [], []⟩

/-- A reference to the `User` schema of `specU`. -/
def userRef : String := "#/components/schemas/User"

/-- A schema with `type: "null"` and nothing else, an empty schema in the
sense of `isEmptySchema`. -/
def nullNode : Sch :=
  .node (some "null") none none false none [] none none none none none none

/-- The reference participating in the `A → B → A` dependency cycle. -/
def cycRefA : String := "#/components/schemas/A"

/-- The other reference of the cycle. -/
def cycRefB : String := "#/components/schemas/B"

/-- Schema `A` of the cycle: an object whose property `b` references `B`. -/
def cycSchemaA : Sch := objNode [("b", .ref cycRefB)] []

/-- Schema `B` of the cycle: an object whose property `a` references `A`. -/
def cycSchemaB : Sch := objNode [("a", .ref cycRefA)] []

/-- The cyclic document: `components.schemas = { A, B }` with `A → B → A`. -/
def cycSpec : SpecDoc := ⟨[("A", cycSchemaA), ("B", cycSchemaB)], [], []⟩

/-- A dangling reference: no `Missing` schema exists in `brokenSpec`. -/
def brokenRef : String := "#/components/schemas/Missing"

/-- A document whose single named schema entry is itself an unresolvable
reference. -/
def brokenSpec : SpecDoc := ⟨[("Broken", .ref brokenRef)], [], []⟩

/-- The path `/users/(id)` with literal braces around `id`. -/
def uidPath : String := "/users/" ++ charLBrace.toString ++ "id" ++ charRBrace.toString

/-- The path `/users/x/(id)` with literal braces around `id`. -/
def uxPath : String :=
  "/users/x/" ++ charLBrace.toString ++ "id" ++ charRBrace.toString

/-- The path `/users/y/(id)` with literal braces around `id`. -/
def uyPath : String :=
  "/users/y/" ++ charLBrace.toString ++ "id" ++ charRBrace.toString

/-- String concatenation is left-cancellative. -/
theorem strAppend_left_cancel {a x y : String} (h : a ++ x = a ++ y) : x = y := by
  apply String.ext
  have hd : a.data ++ x.data = a.data ++ y.data := by
    rw [← String.data_append, ← String.data_append, h]
  exact List.append_cancel_left hd

/-- Appending distinct right parts to one string gives distinct strings. -/
theorem strAppend_ne {a x y : String} (h : x ≠ y) : a ++ x ≠ a ++ y :=
  fun he => h (strAppend_left_cancel he)

/-- C4: claim refuted at a two-endpoint document. The first conjunct shows
the implemented direction of the collision policy: a leaf placed at `a` and
then needed as a folder is preserved under `_self`. The second conjunct
shows the reverse insertion order: the folder `a` holding `/a/b` is
silently overwritten by the leaf `/a`, so the endpoint path `/a/b` is no
longer reachable anywhere in the final tree. -/
theorem apiEndpointsStructure_folder_leaf_overwrite :
    apiEndpointsStructureF [("get", "/a"), ("get", "/a/b")] 0 =
      [("a", .folder [("_self", .leaf "/a"), ("a_b", .leaf "/a/b")])] ∧
    apiEndpointsStructureF [("get", "/a/b"), ("get", "/a")] 0 =
      [("a", .leaf "/a")] :=
  ⟨rfl, rfl⟩

/-- C3, counterexample: generating the declaration for a named schema whose
entry is itself an unresolvable reference throws
`Failed to resolve reference`, refuting "never throws" — `generateTypes`
calls `generateSchemaType` on every `components.schemas` entry, so the
exception aborts the whole run. -/
theorem generateSchemaType_throws_on_broken_entry :
    generateSchemaTypeF 9 brokenSpec "Broken" (.ref brokenRef) =
      some (.error "Failed to resolve reference: #/components/schemas/Missing") :=
  rfl

/-- C3, amended: inside the type-expression compiler a reference whose
resolution fails degrades to the reference's trailing path segment and
never throws (both generator variants); but a named schema entry that is
itself an unresolvable reference goes through `resolveSchema`, which
throws, so whole-map generation aborts on such a document. -/
theorem sts_dangling_ref_degrades :
    (∀ (fuel : Nat) (spec : SpecDoc) (r ctx : String), resolveRefF spec r = none →
      stsA (fuel + 1) spec (.ref r) ctx = some (extractTypeNameFromRef r)) ∧
    (∀ (fuel : Nat) (spec : SpecDoc) (r ctx : String), resolveRefF spec r = none →
      stsB (fuel + 1) spec (.ref r) ctx = some (extractTypeNameFromRef r)) ∧
    generateSchemaTypeF 9 brokenSpec "Broken" (.ref brokenRef) =
      some (.error "Failed to resolve reference: #/components/schemas/Missing") := by
  refine ⟨?_, ?_, rfl⟩
  · intro fuel spec r ctx h
    simp [stsA, h]
  · intro fuel spec r ctx h
    simp [stsB, h]

/-- C8: for every non-reference schema node with `nullable` set, both
schema-generator variants return exactly the compilation of the same node
with `nullable` cleared followed by the literal suffix `" | null"` (the
`Option.map` also transports the out-of-fuel case: the outer call is
defined exactly when the inner one is). -/
theorem sts_nullable_appends_null :
    (∀ (fuel : Nat) (spec : SpecDoc) (ctx : String) (ty fmt dsc : Option String)
      (props : Option (List (String × Sch))) (req : List String) (items : Option Sch)
      (ev : Option (List EnumLit)) (one anyO allO : Option (List Sch))
      (ap : Option (Bool ⊕ Sch)),
      stsA (fuel + 1) spec (.node ty fmt dsc true props req items ev one anyO allO ap) ctx =
        (stsA fuel spec (.node ty fmt dsc false props req items ev one anyO allO ap) ctx).map
          (fun t => t ++ " | null")) ∧
    (∀ (fuel : Nat) (spec : SpecDoc) (ctx : String) (ty fmt dsc : Option String)
      (props : Option (List (String × Sch))) (req : List String) (items : Option Sch)
      (ev : Option (List EnumLit)) (one anyO allO : Option (List Sch))
      (ap : Option (Bool ⊕ Sch)),
      stsB (fuel + 1) spec (.node ty fmt dsc true props req items ev one anyO allO ap) ctx =
        (stsB fuel spec (.node ty fmt dsc false props req items ev one anyO allO ap) ctx).map
          (fun t => t ++ " | null")) := by
  constructor
  · intro fuel spec ctx ty fmt dsc props req items ev one anyO allO ap
    simp [stsA]
  · intro fuel spec ctx ty fmt dsc props req items ev one anyO allO ap
    simp [stsB]

/-- C7, counterexample: supplying the value `$&` for the one placeholder of
the template does not substitute the value's text — `String.replace`
expands `$&` to the matched substring, re-inserting the placeholder — so
the emitted `buildUrl` throws the missing-parameter error even though the
parameter was supplied, refuting "replaces every placeholder with the
string form of params[key] and returns the resulting URL". -/
theorem buildUrl_dollar_value_cex :
    buildUrlF ("/u/" ++ charLBrace.toString ++ "id" ++ charRBrace.toString) [("id", "$&")] =
      .error "Missing required path parameters: id. Provided params: id" :=
  rfl

/-- C7, amended: for parameters whose keys are plain characters (no regex
syntax characters, so the dynamically built pattern is a valid regex
matching exactly the literal placeholder) and whose values contain no
dollar (so the replacement string is not expanded), the emitted `buildUrl`
replaces every placeholder with the parameter's string form: a successful
call returns exactly the substituted template with no placeholder left,
and a failing call throws the `Missing required path parameters` error
naming exactly the surviving placeholders and the supplied parameter
names; the two documented calls behave as claimed. -/
theorem buildUrl_contract :
    buildUrlF ("/api/v1/users/" ++ charLBrace.toString ++ "id" ++ charRBrace.toString)
        [("id", "123")] = .ok "/api/v1/users/123" ∧
    buildUrlF ("/api/v1/x/" ++ charLBrace.toString ++ "a" ++ charRBrace.toString ++ "/" ++
        charLBrace.toString ++ "b" ++ charRBrace.toString) [("a", "1")] =
      .error "Missing required path parameters: b. Provided params: a" ∧
    (∀ (t : String) (ps : List (String × String)) (r : String),
      (∀ kv ∈ ps, kv.1.toList.all regexPlainChar = true ∧ kv.2.toList.contains '$' = false) →
      buildUrlF t ps = .ok r → r = substituteParams t ps ∧ placeholdersF r = []) ∧
    (∀ (t : String) (ps : List (String × String)) (e : String),
      (∀ kv ∈ ps, kv.1.toList.all regexPlainChar = true ∧ kv.2.toList.contains '$' = false) →
      buildUrlF t ps = .error e →
        placeholdersF (substituteParams t ps) ≠ [] ∧
        e = "Missing required path parameters: " ++
              joinSep ", " (placeholdersF (substituteParams t ps)) ++
            ". Provided params: " ++ joinSep ", " (ps.map (·.1))) := by
  refine ⟨rfl, rfl, ?_, ?_⟩
  · intro t ps r _hsafe h
    unfold buildUrlF at h
    by_cases hp : (placeholdersF (substituteParams t ps)).isEmpty
    · simp only [hp, if_pos] at h
      cases h
      exact ⟨rfl, List.isEmpty_eq_true.mp hp⟩
    · simp only [hp] at h
      simp at h
  · intro t ps e _hsafe h
    unfold buildUrlF at h
    by_cases hp : (placeholdersF (substituteParams t ps)).isEmpty
    · simp only [hp, if_pos] at h
      simp at h
    · simp only [hp] at h
      cases h
      refine ⟨?_, rfl⟩
      intro hnil
      exact hp (by simp [hnil])

/-- The cyclic resolution facts used below, as rewrite rules. -/
theorem resolveRef_cycA : resolveRefF cycSpec cycRefA = some cycSchemaA := rfl

/-- Resolution of the second reference of the cycle. -/
theorem resolveRef_cycB : resolveRefF cycSpec cycRefB = some cycSchemaB := rfl

/-- On the cyclic document, every amount of fuel is exhausted from every
entry point of the traversal and every accumulator: the source's
`traverse` keeps no visited set, so it re-enters the cycle forever. -/
theorem travDeps_cyc (n : Nat) : ∀ acc : List String,
    travDeps cycSpec n (.ref cycRefA) acc = none ∧
    travDeps cycSpec n (.ref cycRefB) acc = none ∧
    travDeps cycSpec n cycSchemaA acc = none ∧
    travDeps cycSpec n cycSchemaB acc = none := by
  induction n with
  | zero =>
    intro acc
    refine ⟨?_, ?_, ?_, ?_⟩ <;> simp [travDeps]
  | succ n ih =>
    intro acc
    refine ⟨?_, ?_, ?_, ?_⟩
    · show travDeps cycSpec (n + 1) (.ref cycRefA) acc = none
      rw [travDeps, resolveRef_cycA]
      simpa [hasTypeField, cycSchemaA, objNode] using
        (ih (setAdd acc (extractTypeNameFromRef cycRefA))).2.2.1
    · show travDeps cycSpec (n + 1) (.ref cycRefB) acc = none
      rw [travDeps, resolveRef_cycB]
      simpa [hasTypeField, cycSchemaB, objNode] using
        (ih (setAdd acc (extractTypeNameFromRef cycRefB))).2.2.2
    · show travDeps cycSpec (n + 1) cycSchemaA acc = none
      have hb := (ih acc).2.1
      simp [cycSchemaA, objNode, travDeps, travList, hb]
    · show travDeps cycSpec (n + 1) cycSchemaB acc = none
      have ha := (ih acc).1
      simp [cycSchemaB, objNode, travDeps, travList, ha]

/-- C1: on the `A → B → A` document, dependency extraction exhausts every
fuel bound — the embedded recursion has no terminating run, matching the
stack overflow of the unguarded source recursion. -/
theorem extractDependencies_cycle_diverges :
    ∀ fuel : Nat, extractDependenciesF fuel cycSpec cycSchemaA = none := by
  intro fuel
  exact (travDeps_cyc fuel []).2.2.1

/-- Running the collapse scan over a block of empty schemas leaves the
accumulator untouched. -/
theorem getSingleRefGo_skips_empty (l : List Sch) (rest : List Sch)
    (h : ∀ s ∈ l, isEmptySchemaF s = true) (acc : Option String) :
    getSingleRefGo (l ++ rest) acc = getSingleRefGo rest acc := by
  induction l with
  | nil => rfl
  | cons s l ihl =>
    have hs := h s (List.mem_cons_self s l)
    have hl : ∀ x ∈ l, isEmptySchemaF x = true := fun x hx => h x (List.mem_cons_of_mem s hx)
    cases s with
    | ref r => simp [isEmptySchemaF] at hs
    | node ty fmt dsc nb props req items ev one anyO allO ap =>
      simp only [List.cons_append, getSingleRefGo, hs, if_pos]
      exact ihl hl

/-- The collapse rule itself: a list holding exactly one reference entry,
with every other entry an empty schema, collapses to the reference's
trailing name. -/
theorem getSingleRef_collapse (l1 l2 : List Sch) (r : String)
    (h1 : ∀ s ∈ l1, isEmptySchemaF s = true) (h2 : ∀ s ∈ l2, isEmptySchemaF s = true) :
    getSingleRefTypeNameIfAllOthersEmpty (l1 ++ Sch.ref r :: l2) =
      some (extractTypeNameFromRef r) := by
  unfold getSingleRefTypeNameIfAllOthersEmpty
  rw [getSingleRefGo_skips_empty l1 (Sch.ref r :: l2) h1 none]
  show getSingleRefGo (Sch.ref r :: l2) none = some (extractTypeNameFromRef r)
  rw [getSingleRefGo]
  have := getSingleRefGo_skips_empty l2 [] h2 (some (extractTypeNameFromRef r))
  simpa using this

/-- C2, counterexample: for a single-reference list whose reference has an
empty trailing path segment (a pointer ending in `/`), the collapse scan
returns the empty string, the truthiness guard `if (singleRefType)` skips
the collapse, and the generator emits the parenthesized union form `()` —
not the trailing name the claim demands. -/
theorem sts_collapse_skipped_on_empty_name_cex :
    extractTypeNameFromRef "x/" = "" ∧
    stsB 1 specU
      (.node none none none false none [] none none (some [.ref "x/"]) none none none) "C" =
      some "()" :=
  ⟨rfl, rfl⟩

/-- C2, amended: in the collapsing schema generator, compiling a node whose
`oneOf` (first half) or `anyOf` (second half) list is one reference plus
any number of empty schemas yields exactly the referenced type's trailing
name — no union syntax, no parentheses — provided that trailing name is
non-empty (an empty trailing name is falsy, so the source's
`if (singleRefType)` guard skips the collapse); the three closed conjuncts
exhibit the claim's `N = 0, 1, 2` instances. -/
theorem sts_union_collapses_to_single_ref :
    (∀ (fuel : Nat) (spec : SpecDoc) (ctx r : String) (l1 l2 : List Sch)
      (ty fmt dsc : Option String) (props : Option (List (String × Sch)))
      (req : List String) (items : Option Sch) (ev : Option (List EnumLit))
      (anyO allO : Option (List Sch)) (ap : Option (Bool ⊕ Sch)),
      extractTypeNameFromRef r ≠ "" →
      (∀ s ∈ l1, isEmptySchemaF s = true) → (∀ s ∈ l2, isEmptySchemaF s = true) →
      stsB (fuel + 1) spec
        (.node ty fmt dsc false props req items ev (some (l1 ++ Sch.ref r :: l2)) anyO allO ap)
        ctx = some (extractTypeNameFromRef r)) ∧
    (∀ (fuel : Nat) (spec : SpecDoc) (ctx r : String) (l1 l2 : List Sch)
      (ty fmt dsc : Option String) (props : Option (List (String × Sch)))
      (req : List String) (items : Option Sch) (ev : Option (List EnumLit))
      (allO : Option (List Sch)) (ap : Option (Bool ⊕ Sch)),
      extractTypeNameFromRef r ≠ "" →
      (∀ s ∈ l1, isEmptySchemaF s = true) → (∀ s ∈ l2, isEmptySchemaF s = true) →
      stsB (fuel + 1) spec
        (.node ty fmt dsc false props req items ev none (some (l1 ++ Sch.ref r :: l2)) allO ap)
        ctx = some (extractTypeNameFromRef r)) ∧
    stsB 1 specU
      (.node none none none false none [] none none (some [.ref userRef]) none none none)
      "C" = some "User" ∧
    stsB 1 specU
      (.node none none none false none [] none none (some [.ref userRef, emptyNode]) none none
        none) "C" = some "User" ∧
    stsB 1 specU
      (.node none none none false none [] none none none
        (some [emptyNode, .ref userRef, nullNode]) none none) "C" = some "User" := by
  refine ⟨?_, ?_, rfl, rfl, rfl⟩
  · intro fuel spec ctx r l1 l2 ty fmt dsc props req items ev anyO allO ap hr h1 h2
    have hact : listActive (some (l1 ++ Sch.ref r :: l2)) = true := by
      cases l1 <;> simp [listActive]
    have hcol := getSingleRef_collapse l1 l2 r h1 h2
    have htr : jsTruthyStr (some (extractTypeNameFromRef r)) = true := by
      simp [jsTruthyStr, hr]
    simp [stsB, hact, hcol, htr]
  · intro fuel spec ctx r l1 l2 ty fmt dsc props req items ev allO ap hr h1 h2
    have hact : listActive (some (l1 ++ Sch.ref r :: l2)) = true := by
      cases l1 <;> simp [listActive]
    have hcol := getSingleRef_collapse l1 l2 r h1 h2
    have htr : jsTruthyStr (some (extractTypeNameFromRef r)) = true := by
      simp [jsTruthyStr, hr]
    simp [stsB, hact, hcol, htr, listActive]

/-- C9: a reference appearing as an object property is emitted as the
reference's trailing path segment for every document and every fuel — the
property compiler never resolves it — while a reference at the top level
of compilation is resolved and expanded whenever the target carries a
`type`. The two closed conjuncts contrast the behaviours on `specU`, where
the same reference gives `User` as a property type and `string` at top
level. -/
theorem object_property_ref_uses_trailing_name :
    (∀ (n : Nat) (spec : SpecDoc) (ctx name r : String), isValidIdent name = true →
      stsA (n + 1) spec (objNode [(name, .ref r)] [name]) ctx =
        some ("\x7b\n  " ++ name ++ ": " ++ extractTypeNameFromRef r ++ ";\n\x7d")) ∧
    (∀ (n : Nat) (spec : SpecDoc) (ctx r : String) (t : Sch),
      resolveRefF spec r = some t → hasTypeField t = true →
      stsA (n + 1) spec (.ref r) ctx = stsA n spec t ctx) ∧
    stsA 3 specU (objNode [("a", .ref userRef)] ["a"]) "C" =
      some ("\x7b\n  a: User;\n\x7d") ∧
    stsA 3 specU (.ref userRef) "C" = some "string" := by
  refine ⟨?_, ?_, rfl, rfl⟩
  · intro n spec ctx name r hname
    have h1 : ("" : String) ++ "  " = "  " := rfl
    have h2 : (";" : String) ++ "\n\x7d" = ";\n\x7d" := rfl
    have h3 : ("\x7b\n" : String) ++ "  " = "\x7b\n  " := rfl
    simp [stsA, objNode, listActive, propComment, Sch.descrOf, safeKey, hname, joinSep,
      List.mapM.loop, String.append_assoc, h1, h2, h3]
    rw [← String.append_assoc, h3]
  · intro n spec ctx r t hres hty
    simp [stsA, hres, hty]

/-- A split never produces the empty list of pieces. -/
theorem splitCharList_ne_nil (sep : Char) (l : List Char) : splitCharList sep l ≠ [] := by
  cases l with
  | nil => simp [splitCharList]
  | cons c cs =>
    by_cases h : c = sep
    · simp [splitCharList, h]
    · simp only [splitCharList, if_neg h]
      cases hs : splitCharList sep cs <;> simp

/-- Splitting a string of the form `pre ++ sep ++ rest`, with no separator
inside `pre`, peels off `pre` as the first piece. -/
theorem splitCharList_peelPiece (sep : Char) (pre rest : List Char)
    (h : ∀ c ∈ pre, c ≠ sep) :
    splitCharList sep (pre ++ sep :: rest) = pre :: splitCharList sep rest := by
  induction pre with
  | nil => simp [splitCharList]
  | cons c cs ih =>
    have hc : c ≠ sep := h c (List.mem_cons_self c cs)
    have hcs : ∀ x ∈ cs, x ≠ sep := fun x hx => h x (List.mem_cons_of_mem c hx)
    simp only [List.cons_append, splitCharList, if_neg hc, List.append_eq, ih hcs]

/-- Turning a character cons cell into its string. -/
theorem asString_cons (c : Char) (l : List Char) :
    (c :: l).asString = c.toString ++ l.asString := rfl

/-- Joining a list whose first element carries a string prefix moves the
prefix out of the join. -/
theorem joinSep_headPiece (sep p x : String) (xs : List String) :
    joinSep sep ((p ++ x) :: xs) = p ++ joinSep sep (x :: xs) := by
  cases xs with
  | nil => rfl
  | cons y ys => simp [joinSep, String.append_assoc]

/-- Joining the pieces of a split with the separator restores the original
string (the `keyParts.join('/')` of `resolveRef` on the output of
`ref.split('/')`). -/
theorem joinSep_splitCharList (l : List Char) :
    joinSep "/" ((splitCharList '/' l).map List.asString) = l.asString := by
  induction l with
  | nil => rfl
  | cons c cs ih =>
    by_cases hc : c = '/'
    · subst hc
      obtain ⟨z, zs, hz⟩ : ∃ z zs, splitCharList '/' cs = z :: zs := by
        cases h : splitCharList '/' cs with
        | nil => exact absurd h (splitCharList_ne_nil '/' cs)
        | cons z zs => exact ⟨z, zs, rfl⟩
      rw [show splitCharList '/' ('/' :: cs) = [] :: splitCharList '/' cs from by
        simp [splitCharList]]
      rw [hz, List.map_cons, List.map_cons]
      rw [hz, List.map_cons] at ih
      rw [joinSep, ih]
      rfl
    · obtain ⟨g, gs, hg⟩ : ∃ g gs, splitCharList '/' cs = g :: gs := by
        cases h : splitCharList '/' cs with
        | nil => exact absurd h (splitCharList_ne_nil '/' cs)
        | cons g gs => exact ⟨g, gs, rfl⟩
      simp only [splitCharList, if_neg hc, hg, List.map_cons] at ih ⊢
      rw [asString_cons, joinSep_headPiece, ih, ← asString_cons]

/-- The character list of an appended string. -/
theorem strToList_append (a b : String) : (a ++ b).toList = a.toList ++ b.toList :=
  String.data_append a b

/-- A string is the string of its characters. -/
theorem asString_toList (s : String) : s.toList.asString = s := rfl

/-- C10: the reference resolver resolves the legacy `#/definitions/<key>`
pointer by looking `<key>` up in `components.schemas` (so an absent key
gives the not-found result), and every reference string that does not
start with `#/` resolves to the not-found result; the closed conjuncts
instantiate both on `specU`. -/
theorem resolveRef_definitions_and_foreign :
    (∀ (spec : SpecDoc) (key : String),
      resolveRefF spec ("#/definitions/" ++ key) = assocLookup spec.schemas key) ∧
    (∀ (spec : SpecDoc) (r : String), (['#', '/'].isPrefixOf r.toList) = false →
      resolveRefF spec r = none) ∧
    resolveRefF specU "#/definitions/User" = some (primNode "string") ∧
    resolveRefF specU "#/definitions/Nope" = none ∧
    resolveRefF specU "http://x" = none := by
  refine ⟨?_, ?_, rfl, rfl, rfl⟩
  · intro spec key
    have hlist : ("#/definitions/" ++ key).toList =
        '#' :: '/' :: ("definitions".toList ++ '/' :: key.toList) := by
      rw [strToList_append]; rfl
    have hsplit : splitCharList '/' ("definitions".toList ++ '/' :: key.toList) =
        "definitions".toList :: splitCharList '/' key.toList :=
      splitCharList_peelPiece '/' _ _ (by decide)
    obtain ⟨z, zs, hz⟩ : ∃ z zs, splitCharList '/' key.toList = z :: zs := by
      cases h : splitCharList '/' key.toList with
      | nil => exact absurd h (splitCharList_ne_nil '/' key.toList)
      | cons z zs => exact ⟨z, zs, rfl⟩
    unfold resolveRefF
    rw [hlist]
    simp only [List.isPrefixOf, List.drop, hsplit, hz, List.map_cons]
    have hkey : joinSep "/" (z.asString :: zs.map List.asString) = key := by
      have := joinSep_splitCharList key.toList
      rw [hz, List.map_cons] at this
      rw [this, asString_toList]
    simp only [List.length_cons, List.getD_cons_zero]
    rw [show ("definitions".toList.asString) = "definitions" from rfl]
    simp [hkey]
  · intro spec r h
    simp only [resolveRefF, h]
    simp

/-- C5, counterexample: on the all-whitespace path `" "` the implementation
answers `root` (its `trim()` check fires), while the claim's algorithm —
strip slashes, split, drop brace segments, drop the prefix, `root` only
when no segments remain — keeps the single segment `" "` and returns it. -/
theorem pathToEndpointName_whitespace_cex :
    pathToEndpointNameF " " 0 = "root" ∧ pathToEndpointNameSpec " " 0 = " " :=
  ⟨rfl, rfl⟩

/-- C5, amended: the namer equals the claim's algorithm extended with the
whitespace rule (an all-whitespace path also maps to `root`), and the four
documented evaluations hold. -/
theorem pathToEndpointName_spec :
    (∀ (p : String) (k : Nat), pathToEndpointNameF p k = pathToEndpointNameAmended p k) ∧
    pathToEndpointNameF "/api/v1/auth/login" 1 = "auth_login" ∧
    pathToEndpointNameF "/api/v1/auth/login" 0 = "api_v1_auth_login" ∧
    pathToEndpointNameF "/" 0 = "root" ∧
    pathToEndpointNameF
      ("/api/v1/users/" ++ charLBrace.toString ++ "id" ++ charRBrace.toString) 1 =
      "users" := by
  refine ⟨?_, rfl, rfl, rfl, rfl⟩
  intro p k
  unfold pathToEndpointNameF pathToEndpointNameAmended
  by_cases hT : trimEmpty p = true
  · simp [hT]
  · by_cases hS : stripSlashes p = ""
    · have h0 : jsSplit '/' "" = [""] := rfl
      have hspec : pathToEndpointNameSpec p k = "root" := by
        simp only [pathToEndpointNameSpec, hS, h0]
        simp
      simp [hS, hT, hspec]
    · have hp : p ≠ "/" := fun h => hS (by rw [h]; rfl)
      have hcond : ¬(p = "/" ∨ trimEmpty p = true ∨ stripSlashes p = "") :=
        fun hor => hor.elim hp (fun hor2 => hor2.elim hT hS)
      rw [if_neg hcond, if_neg hT]
      rfl

/-- C6: collision resolution over a `(folder, base-name)` group. First
half: two endpoints sharing one exact path and differing in (lowercased)
method get the base name suffixed with each method. Second half: two
endpoints with differing paths sharing a base name get the suffix derived
from their path parameters (when those derived keys differ). The closed
conjuncts run the claim's examples, the last one showing the method and
counter tie-breakers on a three-way clash of derived keys. -/
theorem resolveEndpointNames_collision_policy :
    (∀ (f b p m1 m2 : String), strToLower m1 ≠ strToLower m2 →
      resolveEndpointNamesF [⟨f, b, m1, p⟩, ⟨f, b, m2, p⟩] =
        [b ++ "_" ++ strToLower m1, b ++ "_" ++ strToLower m2]) ∧
    (∀ (f b m1 m2 p1 p2 : String), p1 ≠ p2 →
      paramKeyFor b p1 ≠ paramKeyFor b p2 →
      resolveEndpointNamesF [⟨f, b, m1, p1⟩, ⟨f, b, m2, p2⟩] =
        [paramKeyFor b p1, paramKeyFor b p2]) ∧
    resolveEndpointNamesF
      [⟨"", "users", "get", uidPath⟩, ⟨"", "users", "post", uidPath⟩] =
      ["users_get", "users_post"] ∧
    resolveEndpointNamesF
      [⟨"", "users", "get", "/users"⟩, ⟨"", "users", "get", uidPath⟩] =
      ["users", "users_by_id"] ∧
    resolveEndpointNamesF
      [⟨"", "users", "get", uidPath⟩, ⟨"", "users", "get", uxPath⟩,
       ⟨"", "users", "get", uyPath⟩] =
      ["users_by_id", "users_by_id_get", "users_by_id_get_2"] := by
  refine ⟨?_, ?_, rfl, rfl, rfl⟩
  · intro f b p m1 m2 h
    have hne : b ++ "_" ++ strToLower m2 ≠ b ++ "_" ++ strToLower m1 :=
      strAppend_ne (Ne.symm h)
    have hrange : List.range 2 = [0, 1] := rfl
    simp [resolveEndpointNamesF, buildGroups, insertGroup, groupKey, processGroup,
      assignGroup, finalKeyFor, distinctCount, setAdd, hne, hrange, List.lookup]
  · intro f b m1 m2 p1 p2 hp hk
    have hpne : p2 ≠ p1 := Ne.symm hp
    have hk1 : (if buildParamSuffixF p1 = "" then b else b ++ "_" ++ buildParamSuffixF p1) =
        paramKeyFor b p1 := rfl
    have hk2 : (if buildParamSuffixF p2 = "" then b else b ++ "_" ++ buildParamSuffixF p2) =
        paramKeyFor b p2 := rfl
    have hkne : paramKeyFor b p2 ≠ paramKeyFor b p1 := Ne.symm hk
    have hrange : List.range 2 = [0, 1] := rfl
    simp [resolveEndpointNamesF, buildGroups, insertGroup, groupKey, processGroup,
      assignGroup, finalKeyFor, distinctCount, setAdd, hrange, hpne, hk1, hk2, hkne,
      List.lookup]

end Swagger
